import Mathlib

/-!
Shallow embedding of src/convert.py (DMS coordinate conversion).

Modelling conventions:
* Python strings are List Char.  Python str.strip is pyStrip, with the ASCII
  whitespace set (space, tab, newline, carriage return, vertical tab, form
  feed); the Unicode extras of Python are immaterial to every claim.
* Python floats are idealised as exact rationals; round(x, 8) is round8,
  rounding half up (the spec explicitly allows any platform rounding rule
  at the half-way points).
* re.search with the three fixed DMS patterns is compiled to searchFrom.
  Each pattern has the shape digits, degree sign, digits, apostrophe,
  seconds-class run, terminator, hemisphere letter.  Every quantified class
  in the pattern is immediately followed by a literal that is not in the
  class, so the backtracking regex engine leaves exactly one candidate at a
  given start position: the maximal greedy run.  re.search returns the
  match at the leftmost feasible start, which searchFrom scans for.
  The Python digit class is modelled as the ASCII digits.
* Exceptions (ValueError raised by float on a seconds group that is not a
  valid float literal, KeyError raised by a dict lookup on a missing key)
  are Except.error (); print diagnostics are accumulated in a List Diag.
* File input and output is surrounding plumbing: the two converters are
  modelled on the row sequences the csv readers would deliver.
-/

instance {ε α : Type} [DecidableEq ε] [DecidableEq α] : DecidableEq (Except ε α) := fun x y =>
  match x, y with
  | Except.error a, Except.error b =>
    if h : a = b then isTrue (by rw [h]) else isFalse (fun hc => by cases hc; exact h rfl)
  | Except.error _, Except.ok _ => isFalse (fun hc => by cases hc)
  | Except.ok _, Except.error _ => isFalse (fun hc => by cases hc)
  | Except.ok a, Except.ok b =>
    if h : a = b then isTrue (by rw [h]) else isFalse (fun hc => by cases hc; exact h rfl)

def isPyWs (c : Char) : Bool :=
  c = ' ' || c = '\t' || c = '\n' || c = '\r' || c = '\x0B' || c = '\x0C'

/-- Python str.strip on a list of characters. -/
def pyStrip (l : List Char) : List Char :=
  ((l.dropWhile isPyWs).reverse.dropWhile isPyWs).reverse

/-- Character class of the seconds group of the patterns: digit or dot. -/
def isSecCh (c : Char) : Bool := c.isDigit || c = '.'

/-- Character class of the hemisphere group of the patterns. -/
def isHemi (c : Char) : Bool := c = 'N' || c = 'S' || c = 'E' || c = 'W'

/-- Hemisphere letters that negate the decimal value (line 43 of the source). -/
def hemiNeg (c : Char) : Bool := c = 'S' || c = 'W'

/-- Captured groups of a successful pattern match. -/
structure Groups where
  deg : List Char
  mins : List Char
  secs : List Char
  hemi : Char
deriving DecidableEq

/-- Boolean test that the first list is an initial segment of the second. -/
def hasPre : List Char → List Char → Bool
  | [], _ => true
  | _ :: _, [] => false
  | a :: p, b :: l => a = b && hasPre p l

def termA : List Char := ['\'', '\'']
def termB : List Char := ['\"']
def termC : List Char := ['\'']

/-- Deterministic match of one DMS pattern anchored at the head of s:
digits, degree sign, digits, apostrophe, seconds run, the terminator term,
and a hemisphere letter.  Greedy runs are maximal; as explained in the
header this is exactly what the Python regex engine produces here. -/
def matchAt (term : List Char) (s : List Char) : Option Groups :=
  let d := s.takeWhile Char.isDigit
  match s.dropWhile Char.isDigit with
  | '°' :: s2 =>
    let m := s2.takeWhile Char.isDigit
    match s2.dropWhile Char.isDigit with
    | '\'' :: s3 =>
      let sec := s3.takeWhile isSecCh
      let s4 := s3.dropWhile isSecCh
      match s4.drop term.length with
      | h :: _ =>
        if d.isEmpty || m.isEmpty || sec.isEmpty || !hasPre term s4 || !isHemi h then none
        else some ⟨d, m, sec, h⟩
      | [] => none
    | _ => none
  | _ => none

/-- re.search for one pattern: try every start position left to right. -/
def searchFrom (term : List Char) : List Char → Option Groups
  | [] => none
  | c :: rest =>
    match matchAt term (c :: rest) with
    | some g => some g
    | none => searchFrom term rest

/-- Lines 24 to 28 of the source: try the three patterns in their fixed
order and keep the first that matches. -/
def search3 (s : List Char) : Option Groups :=
  match searchFrom termA s with
  | some g => some g
  | none =>
    match searchFrom termB s with
    | some g => some g
    | none => searchFrom termC s

/-- Addition on the rationals through the reducible smart constructor.
The library addition is irreducible, which blocks kernel evaluation of
concrete runs; qAdd_eq below identifies this with the library addition. -/
def qAdd (a b : ℚ) : ℚ := Rat.divInt (a.num * b.den + b.num * a.den) (a.den * b.den)

/-- Multiplication on the rationals through the reducible smart
constructor; qMul_eq identifies it with the library multiplication. -/
def qMul (a b : ℚ) : ℚ := Rat.divInt (a.num * b.num) (a.den * b.den)

/-- Division on the rationals through the reducible smart constructor;
qDiv_eq identifies it with the library division. -/
def qDiv (a b : ℚ) : ℚ := Rat.divInt (a.num * b.den) (a.den * b.num)

/-- Negation on the rationals through the reducible smart constructor;
qNeg_eq identifies it with the library negation. -/
def qNeg (a : ℚ) : ℚ := Rat.divInt (-a.num) a.den

/-- Value of Python int on a string of decimal digits. -/
def digitsVal (l : List Char) : ℕ :=
  l.foldl (fun a c => 10 * a + (c.toNat - 48)) 0

/-- Value of a valid float literal drawn from the seconds class. -/
def secVal (l : List Char) : ℚ :=
  qAdd (digitsVal (l.takeWhile Char.isDigit) : ℚ)
    (match l.dropWhile Char.isDigit with
      | '.' :: fr => qDiv (digitsVal fr : ℚ) ((10 ^ fr.length : ℕ) : ℚ)
      | _ => 0)

/-- Python float applied to a seconds group.  The group is drawn from the
class of digits and dots, and on that domain float succeeds exactly when
the string has at least one digit and at most one dot; otherwise it raises
ValueError, modelled as none. -/
def floatOfSecGroup (l : List Char) : Option ℚ :=
  if l.count '.' ≤ 1 && l.any Char.isDigit then some (secVal l) else none

/-- Diagnostics printed by the source: the could-not-parse message of line
31 and the per-field warning of lines 112 and 122. -/
inductive Diag where
  | couldNotParse (token : List Char)
  | fieldWarning (field : String) (objectid : List Char) (value : List Char)
deriving DecidableEq

/-- Floor of a rational, computed on the normalised fraction. -/
def ratFloor (q : ℚ) : ℤ := Int.fdiv q.num (q.den : ℤ)

/-- Python round(x, 8) on the idealised rational value: round half up at
the eighth decimal (the spec explicitly allows any tie-breaking rule).
Written with the reducible arithmetic wrappers; round8_eq below restates
it with the library operations. -/
def round8 (q : ℚ) : ℚ :=
  qDiv ((ratFloor (qAdd (qMul q 100000000) (qDiv 1 2)) : ℤ) : ℚ) 100000000

/-- Lines 4 to 46 of the source: dms_to_decimal.  Returns the Python
return value (or the escaping exception) together with the printed
diagnostics. -/
def dms_to_decimal (s : List Char) : Except Unit (Option ℚ) × List Diag :=
  if pyStrip s = [] then (Except.ok none, [])
  else
    match search3 (pyStrip s) with
    | none => (Except.ok none, [Diag.couldNotParse (pyStrip s)])
    | some g =>
      match floatOfSecGroup g.secs with
      | none => (Except.error (), [])
      | some sv =>
        let dec : ℚ := qAdd (qAdd (digitsVal g.deg : ℚ) (qDiv (digitsVal g.mins : ℚ) 60)) (qDiv sv 3600)
        (Except.ok (some (round8 (if hemiNeg g.hemi then qNeg dec else dec))), [])

/-- Builder for a whole-token DMS string: degree digits, degree sign,
minute digits, apostrophe, seconds text, terminator, hemisphere letter. -/
def mkToken (d m sec term : List Char) (h : Char) : List Char :=
  d ++ '°' :: (m ++ '\'' :: (sec ++ (term ++ [h])))

/-- Guard of line 59 of the source: at least two columns and both leading
columns nonempty after stripping. -/
def rowGuard (row : List (List Char)) : Bool :=
  decide (2 ≤ row.length) && !(pyStrip (row.getD 0 [])).isEmpty
    && !(pyStrip (row.getD 1 [])).isEmpty

/-- Lines 52 to 67 of the source: the row loop of convert_coordinates_file,
modelled on the row sequence the tab-delimited reader yields after the
header.  Produces the list written to the output file plus diagnostics, or
the escaping exception. -/
def convert_coordinates_file :
    List (List (List Char)) → Except Unit (List (ℚ × ℚ) × List Diag)
  | [] => Except.ok ([], [])
  | row :: rest =>
    if rowGuard row then
      match dms_to_decimal (pyStrip (row.getD 0 [])) with
      | (Except.error e, _) => Except.error e
      | (Except.ok o1, d1) =>
        match dms_to_decimal (pyStrip (row.getD 1 [])) with
        | (Except.error e, _) => Except.error e
        | (Except.ok o2, d2) =>
          match convert_coordinates_file rest with
          | Except.error e => Except.error e
          | Except.ok (ps, ds) =>
            match o1, o2 with
            | some a, some b => Except.ok ((a, b) :: ps, d1 ++ (d2 ++ ds))
            | _, _ => Except.ok (ps, d1 ++ (d2 ++ ds))
    else convert_coordinates_file rest

/-- Contribution of a single row to the pair output: some pair exactly when
the guard passes and both tokens parse to a value. -/
def emitRow (row : List (List Char)) : Option (ℚ × ℚ) :=
  if rowGuard row then
    match (dms_to_decimal (pyStrip (row.getD 0 []))).1,
        (dms_to_decimal (pyStrip (row.getD 1 []))).1 with
    | Except.ok (some a), Except.ok (some b) => some (a, b)
    | _, _ => none
  else none

/-- Tabular record of the schema-aware path: ordered field list, as the
DictReader yields and the DictWriter consumes. -/
abbrev Record := List (String × List Char)

/-- Python dict lookup (first occurrence of the key). -/
def findRec : Record → String → Option (List Char)
  | [], _ => none
  | (k, v) :: t, key => if k = key then some v else findRec t key

/-- Python dict assignment to an existing key, preserving field order. -/
def setRec : Record → String → List Char → Record
  | [], _, _ => []
  | (k, v) :: t, key, w => if k = key then (k, w) :: t else (k, v) :: setRec t key w

/-- Python str of the converted decimal value.  The exact rendering of the
number is immaterial to every claim; a plain rational rendering is used. -/
def ratStr (q : ℚ) : List Char :=
  (if q < 0 then ['-'] else []) ++ Nat.toDigits 10 q.num.natAbs ++
    (if q.den = 1 then [] else '/' :: Nat.toDigits 10 q.den)

/-- One field branch of the record loop (lines 105 to 123 of the source):
look the field up (KeyError when absent), skip when empty after stripping,
otherwise parse; on success overwrite the field and count one success, on
parse failure print the warning (KeyError when objectid is absent) and
count one error. -/
def convertField (r : Record) (key : String) :
    Except Unit (Record × ℕ × ℕ × List Diag) :=
  match findRec r key with
  | none => Except.error ()
  | some v =>
    if pyStrip v = [] then Except.ok (r, 0, 0, [])
    else
      match dms_to_decimal (pyStrip v) with
      | (Except.error e, _) => Except.error e
      | (Except.ok (some q), ds) => Except.ok (setRec r key (ratStr q), 1, 0, ds)
      | (Except.ok none, ds) =>
        match findRec r "objectid" with
        | none => Except.error ()
        | some oid => Except.ok (r, 0, 1, ds ++ [Diag.fieldWarning key oid v])

/-- One iteration of the record loop: latitude branch then longitude
branch, counts added. -/
def convertRecord (r : Record) : Except Unit (Record × ℕ × ℕ × List Diag) :=
  match convertField r "latitude" with
  | Except.error e => Except.error e
  | Except.ok (r1, s1, e1, d1) =>
    match convertField r1 "longitude" with
    | Except.error e => Except.error e
    | Except.ok (r2, s2, e2, d2) => Except.ok (r2, s1 + s2, e1 + e2, d1 ++ d2)

/-- Lines 96 to 131 of the source: the record loop of convert_firetower_csv
over the records the DictReader yields, returning the written records, the
final conversion and error counters, and the printed warnings, or the
escaping exception. -/
def convert_firetower_csv :
    List Record → Except Unit (List Record × ℕ × ℕ × List Diag)
  | [] => Except.ok ([], 0, 0, [])
  | r :: rest =>
    match convertRecord r with
    | Except.error e => Except.error e
    | Except.ok (r1, s1, e1, d1) =>
      match convert_firetower_csv rest with
      | Except.error e => Except.error e
      | Except.ok (outs, s2, e2, d2) => Except.ok (r1 :: outs, s1 + s2, e1 + e2, d1 ++ d2)

/-- Number of latitude or longitude fields of one record that are nonempty
after stripping (the fields the loop attempts to convert). -/
def countF (r : Record) (key : String) : ℕ :=
  match findRec r key with
  | some v => if pyStrip v = [] then 0 else 1
  | none => 0

/-- Sample row list for concrete runs of the pair converter: one row that
parses on both columns, one row with an unparsable first column, and one
row with a single column. -/
def sampleRows : List (List (List Char)) :=
  [[mkToken ("33").toList ("47").toList ("40").toList termA 'N',
    mkToken ("89").toList ("05").toList ("27").toList termA 'W'],
   [("garbage").toList,
    mkToken ("89").toList ("05").toList ("27").toList termA 'W'],
   [("x").toList]]

/-- The decimal pair the sample run produces from its first row. -/
def samplePair : ℚ × ℚ :=
  (qDiv 3379444444 100000000, qNeg (qDiv 8909083333 100000000))

/-- Sample record whose latitude field is nonempty but unparsable and
whose longitude field is empty. -/
def sampleRecordFail : Record :=
  [("objectid", ("7").toList), ("latitude", ("xx").toList), ("longitude", [])]

/-- Sample record with an extra field and empty coordinate fields. -/
def sampleRecordKeep : Record :=
  [("objectid", ("9").toList), ("name", ("tower").toList),
   ("latitude", []), ("longitude", [])]


/-! Bridge lemmas: the reducible arithmetic wrappers agree with the
library field operations on the rationals. -/

theorem den_cast_ne_zero (a : ℚ) : ((a.den : ℚ)) ≠ 0 := by
  exact_mod_cast a.den_nz

theorem num_eq_mul_den (a : ℚ) : (a.num : ℚ) = a * (a.den : ℚ) :=
  (div_eq_iff (den_cast_ne_zero a)).1 (Rat.num_div_den a)

theorem qAdd_eq (a b : ℚ) : qAdd a b = a + b := by
  rw [qAdd, Rat.divInt_eq_div]
  push_cast
  rw [num_eq_mul_den a, num_eq_mul_den b,
    div_eq_iff (mul_ne_zero (den_cast_ne_zero a) (den_cast_ne_zero b))]
  ring

theorem qMul_eq (a b : ℚ) : qMul a b = a * b := by
  rw [qMul, Rat.divInt_eq_div]
  push_cast
  rw [num_eq_mul_den a, num_eq_mul_den b,
    div_eq_iff (mul_ne_zero (den_cast_ne_zero a) (den_cast_ne_zero b))]
  ring

theorem qNeg_eq (a : ℚ) : qNeg a = -a := by
  rw [qNeg, Rat.divInt_eq_div]
  push_cast
  rw [neg_div, Rat.num_div_den]

theorem qDiv_eq (a b : ℚ) : qDiv a b = a / b := by
  by_cases hb : b = 0
  · subst hb
    rw [div_zero, qDiv]
    simp [Rat.divInt_zero]
  · have hbn : ((b.num : ℚ)) ≠ 0 := by
      exact_mod_cast Rat.num_ne_zero.2 hb
    rw [qDiv, Rat.divInt_eq_div]
    push_cast
    rw [div_eq_div_iff (mul_ne_zero (den_cast_ne_zero a) hbn) hb,
      num_eq_mul_den a, num_eq_mul_den b]
    ring

theorem round8_eq (q : ℚ) :
    round8 q = ((ratFloor (q * 100000000 + 1 / 2) : ℤ) : ℚ) / 100000000 := by
  rw [round8, qDiv_eq, qAdd_eq, qMul_eq, qDiv_eq]

/-! List helper lemmas. -/

theorem hasPre_iff (p : List Char) : ∀ l, hasPre p l = true ↔ ∃ t, l = p ++ t := by
  induction p with
  | nil => intro l; simp [hasPre]
  | cons a p ih =>
    intro l
    cases l with
    | nil => simp [hasPre]
    | cons b l =>
      simp only [hasPre, Bool.and_eq_true, decide_eq_true_eq, ih, List.cons_append,
        List.cons.injEq]
      constructor
      · rintro ⟨rfl, t, rfl⟩
        exact ⟨t, rfl, rfl⟩
      · rintro ⟨t, rfl, rfl⟩
        exact ⟨rfl, t, rfl⟩

theorem hasPre_self (p t : List Char) : hasPre p (p ++ t) = true :=
  (hasPre_iff p (p ++ t)).2 ⟨t, rfl⟩

theorem takeWhile_append_eq (p : Char → Bool) (l : List Char) (a : Char) (r : List Char)
    (hl : ∀ c ∈ l, p c = true) (ha : p a = false) :
    (l ++ a :: r).takeWhile p = l := by
  induction l with
  | nil => simp [List.takeWhile_cons, ha]
  | cons b t ih =>
    have hb : p b = true := hl b (by simp)
    simp [List.takeWhile_cons, hb, ih (fun c hc => hl c (by simp [hc]))]

theorem dropWhile_append_eq (p : Char → Bool) (l : List Char) (a : Char) (r : List Char)
    (hl : ∀ c ∈ l, p c = true) (ha : p a = false) :
    (l ++ a :: r).dropWhile p = a :: r := by
  induction l with
  | nil => simp [List.dropWhile_cons, ha]
  | cons b t ih =>
    have hb : p b = true := hl b (by simp)
    simp [List.dropWhile_cons, hb, ih (fun c hc => hl c (by simp [hc]))]

theorem mem_of_takeWhile (p : Char → Bool) : ∀ (l : List Char) (c : Char),
    c ∈ l.takeWhile p → p c = true := by
  intro l
  induction l with
  | nil => intro c hc; simp [List.takeWhile] at hc
  | cons b t ih =>
    intro c hc
    rw [List.takeWhile_cons] at hc
    by_cases hb : p b = true
    · rw [if_pos hb] at hc
      rcases List.mem_cons.1 hc with rfl | h2
      · exact hb
      · exact ih c h2
    · rw [if_neg hb] at hc
      simp at hc

theorem dropWhile_eq_self_of (p : Char → Bool) (l : List Char)
    (h : ∀ c ∈ l, p c = false) : l.dropWhile p = l := by
  cases l with
  | nil => rfl
  | cons c t => rw [List.dropWhile_cons, h c (by simp)]; simp

theorem pyStrip_eq_self (l : List Char) (h : ∀ c ∈ l, isPyWs c = false) : pyStrip l = l := by
  rw [pyStrip, dropWhile_eq_self_of _ _ h,
    dropWhile_eq_self_of _ _ (fun c hc => h c (by simpa using hc)), List.reverse_reverse]

theorem head_append_left (l r : List Char) (hl : l ≠ []) : (l ++ r).head? = l.head? := by
  cases l with
  | nil => exact absurd rfl hl
  | cons c t => simp

theorem mem_of_head (l : List Char) (a : Char) (h : l.head? = some a) : a ∈ l := by
  cases l with
  | nil => simp at h
  | cons c t =>
    simp only [List.head?_cons, Option.some.injEq] at h
    simp [h]

/-! Characterisation of the pattern matcher. -/

theorem matchAt_some (term s : List Char) (g : Groups) (h : matchAt term s = some g) :
    ∃ rest, s = g.deg ++ '°' :: (g.mins ++ '\'' :: (g.secs ++ (term ++ g.hemi :: rest)))
      ∧ g.deg ≠ [] ∧ g.mins ≠ [] ∧ g.secs ≠ []
      ∧ (∀ c ∈ g.deg, c.isDigit = true) ∧ (∀ c ∈ g.mins, c.isDigit = true)
      ∧ (∀ c ∈ g.secs, isSecCh c = true) ∧ isHemi g.hemi = true := by
  simp only [matchAt] at h
  split at h
  case h_2 => exact Option.noConfusion h
  case h_1 s2 heq1 =>
    split at h
    case h_2 => exact Option.noConfusion h
    case h_1 s3 heq2 =>
      split at h
      case h_2 => exact Option.noConfusion h
      case h_1 hh rest4 heq3 =>
        split at h
        case isTrue => exact Option.noConfusion h
        case isFalse hcond =>
          injection h with h
          subst h
          simp only [Bool.or_eq_true, not_or] at hcond
          obtain ⟨⟨⟨⟨hd, hm⟩, hsec⟩, hpre⟩, hhemi⟩ := hcond
          have hd' : s.takeWhile Char.isDigit ≠ [] := by
            simpa using hd
          have hm' : s2.takeWhile Char.isDigit ≠ [] := by
            simpa using hm
          have hsec' : s3.takeWhile isSecCh ≠ [] := by
            simpa using hsec
          have hpre' : hasPre term (s3.dropWhile isSecCh) = true := by
            simpa using hpre
          have hhemi' : isHemi hh = true := by
            simpa using hhemi
          rcases (hasPre_iff term _).1 hpre' with ⟨t, ht⟩
          have hdrop : (term ++ t).drop term.length = t := List.drop_left term t
          rw [← ht, heq3] at hdrop
          have E : s = s.takeWhile Char.isDigit ++ s.dropWhile Char.isDigit :=
            (List.takeWhile_append_dropWhile Char.isDigit s).symm
          rw [heq1] at E
          have E2 : s2 = s2.takeWhile Char.isDigit ++ s2.dropWhile Char.isDigit :=
            (List.takeWhile_append_dropWhile Char.isDigit s2).symm
          rw [heq2] at E2
          have E3 : s3 = s3.takeWhile isSecCh ++ s3.dropWhile isSecCh :=
            (List.takeWhile_append_dropWhile isSecCh s3).symm
          rw [ht, ← hdrop] at E3
          rw [E3] at E2
          rw [E2] at E
          exact ⟨rest4, E, hd', hm', hsec',
            fun c hc => mem_of_takeWhile _ _ c hc,
            fun c hc => mem_of_takeWhile _ _ c hc,
            fun c hc => mem_of_takeWhile _ _ c hc, hhemi'⟩

theorem matchAt_mk (d m sec term : List Char) (h : Char) (rest : List Char)
    (hd : d ≠ []) (hdd : ∀ c ∈ d, c.isDigit = true)
    (hm : m ≠ []) (hmd : ∀ c ∈ m, c.isDigit = true)
    (hsec : sec ≠ []) (hsecd : ∀ c ∈ sec, isSecCh c = true)
    (a : Char) (t2 : List Char) (hterm : term = a :: t2) (hna : isSecCh a = false)
    (hh : isHemi h = true) :
    matchAt term (d ++ '°' :: (m ++ '\'' :: (sec ++ (term ++ h :: rest))))
      = some ⟨d, m, sec, h⟩ := by
  have e1t : (d ++ '°' :: (m ++ '\'' :: (sec ++ (term ++ h :: rest)))).takeWhile Char.isDigit = d :=
    takeWhile_append_eq _ _ _ _ hdd (by decide)
  have e1d : (d ++ '°' :: (m ++ '\'' :: (sec ++ (term ++ h :: rest)))).dropWhile Char.isDigit
      = '°' :: (m ++ '\'' :: (sec ++ (term ++ h :: rest))) :=
    dropWhile_append_eq _ _ _ _ hdd (by decide)
  have e2t : (m ++ '\'' :: (sec ++ (term ++ h :: rest))).takeWhile Char.isDigit = m :=
    takeWhile_append_eq _ _ _ _ hmd (by decide)
  have e2d : (m ++ '\'' :: (sec ++ (term ++ h :: rest))).dropWhile Char.isDigit
      = '\'' :: (sec ++ (term ++ h :: rest)) :=
    dropWhile_append_eq _ _ _ _ hmd (by decide)
  have hassoc : sec ++ (term ++ h :: rest) = sec ++ a :: (t2 ++ h :: rest) := by
    rw [hterm]; rfl
  have e3t : (sec ++ (term ++ h :: rest)).takeWhile isSecCh = sec := by
    rw [hassoc]; exact takeWhile_append_eq _ _ _ _ hsecd hna
  have e3d : (sec ++ (term ++ h :: rest)).dropWhile isSecCh = term ++ h :: rest := by
    rw [hassoc, dropWhile_append_eq _ _ _ _ hsecd hna, hterm]; rfl
  have e4 : (term ++ h :: rest).drop term.length = h :: rest := List.drop_left term _
  have hd' : d.isEmpty = false := by
    cases d with
    | nil => exact absurd rfl hd
    | cons x t => rfl
  have hm' : m.isEmpty = false := by
    cases m with
    | nil => exact absurd rfl hm
    | cons x t => rfl
  have hsec' : sec.isEmpty = false := by
    cases sec with
    | nil => exact absurd rfl hsec
    | cons x t => rfl
  simp only [matchAt, e1t, e1d, e2t, e2d, e3t, e3d, e4, hd', hm', hsec',
    hasPre_self, hh, Bool.not_true, Bool.or_false, Bool.or_self, Bool.false_or]
  rfl

/-! Search lemmas. -/

theorem searchFrom_of_matchAt (term s : List Char) (g : Groups)
    (h : matchAt term s = some g) : searchFrom term s = some g := by
  cases s with
  | nil =>
    rcases matchAt_some term [] g h with ⟨rest, habs, hd, _⟩
    cases hg : g.deg with
    | nil => exact absurd hg hd
    | cons x t => rw [hg] at habs; exact List.noConfusion habs
  | cons c t =>
    simp only [searchFrom, h]

theorem searchFrom_some (term : List Char) : ∀ (s : List Char) (g : Groups),
    searchFrom term s = some g → ∃ n, matchAt term (s.drop n) = some g := by
  intro s
  induction s with
  | nil => intro g h; simp [searchFrom] at h
  | cons c t ih =>
    intro g h
    simp only [searchFrom] at h
    cases hm : matchAt term (c :: t) with
    | some g2 =>
      rw [hm] at h
      injection h with h
      subst h
      exact ⟨0, by simpa using hm⟩
    | none =>
      rw [hm] at h
      rcases ih g h with ⟨n, hn⟩
      exact ⟨n + 1, by simpa using hn⟩

theorem searchFrom_hemi (term s : List Char) (g : Groups)
    (h : searchFrom term s = some g) : isHemi g.hemi = true ∧ g.hemi ∈ s := by
  rcases searchFrom_some term s g h with ⟨n, hn⟩
  rcases matchAt_some term _ g hn with ⟨rest, hdec, _, _, _, _, _, _, hh⟩
  refine ⟨hh, List.drop_subset n s ?_⟩
  rw [hdec]
  simp

theorem searchFrom_term_mem (term s : List Char) (g : Groups) (c : Char)
    (h : searchFrom term s = some g) (hc : c ∈ term) : c ∈ s := by
  rcases searchFrom_some term s g h with ⟨n, hn⟩
  rcases matchAt_some term _ g hn with ⟨rest, hdec, _⟩
  refine List.drop_subset n s ?_
  rw [hdec]
  simp [hc]

/-! Adjacent-apostrophe machinery: the double-apostrophe pattern can only
match a string holding two adjacent apostrophes. -/

def hasAposPair : List Char → Bool
  | a :: b :: t => (a = '\'' && b = '\'') || hasAposPair (b :: t)
  | _ => false

theorem hasAposPair_cons_iff (a : Char) (l : List Char) :
    hasAposPair (a :: l) = true ↔ (a = '\'' ∧ l.head? = some '\'') ∨ hasAposPair l = true := by
  cases l with
  | nil => simp [hasAposPair]
  | cons b t =>
    simp only [hasAposPair, Bool.or_eq_true, Bool.and_eq_true, decide_eq_true_eq,
      List.head?_cons, Option.some.injEq]

theorem hasAposPair_of_tail (a : Char) (l : List Char) (h : hasAposPair l = true) :
    hasAposPair (a :: l) = true :=
  (hasAposPair_cons_iff a l).2 (Or.inr h)

theorem hasAposPair_cons_false (a : Char) (l : List Char)
    (h1 : ¬ (a = '\'' ∧ l.head? = some '\'')) (h2 : hasAposPair l = false) :
    hasAposPair (a :: l) = false := by
  cases hb : hasAposPair (a :: l) with
  | false => rfl
  | true =>
    rcases (hasAposPair_cons_iff a l).1 hb with hx | hx
    · exact absurd hx h1
    · rw [h2] at hx; exact Bool.noConfusion hx

theorem hasAposPair_of_drop : ∀ (l : List Char) (n : ℕ),
    hasPre termA (l.drop n) = true → hasAposPair l = true := by
  intro l
  induction l with
  | nil =>
    intro n h
    rw [List.drop_nil] at h
    exact absurd h (by decide)
  | cons c t ih =>
    intro n h
    cases n with
    | zero =>
      rw [List.drop_zero] at h
      rcases (hasPre_iff termA _).1 h with ⟨u, hu⟩
      rw [show termA = ['\'', '\''] from rfl] at hu
      rw [hu]
      simp [hasAposPair]
    | succ n =>
      rw [List.drop_succ_cons] at h
      exact hasAposPair_of_tail c t (ih n h)

theorem searchFrom_termA_pair (s : List Char) (g : Groups)
    (h : searchFrom termA s = some g) : hasAposPair s = true := by
  rcases searchFrom_some termA s g h with ⟨n, hn⟩
  rcases matchAt_some termA _ g hn with ⟨rest, hdec, _⟩
  have hp : hasPre termA ((s.drop n).drop
      (g.deg ++ '°' :: (g.mins ++ '\'' :: g.secs)).length) = true := by
    have : s.drop n = (g.deg ++ '°' :: (g.mins ++ '\'' :: g.secs)) ++ (termA ++ g.hemi :: rest) := by
      rw [hdec]
      simp
    rw [this, List.drop_left]
    exact hasPre_self termA (g.hemi :: rest)
  rw [List.drop_drop] at hp
  exact hasAposPair_of_drop s _ hp

theorem noPair_append_left (l r : List Char) (hl : ∀ c ∈ l, ¬ c = '\'')
    (hr : hasAposPair r = false) : hasAposPair (l ++ r) = false := by
  induction l with
  | nil => simpa using hr
  | cons c t ih =>
    have hc : ¬ c = '\'' := hl c (by simp)
    have ht : hasAposPair (t ++ r) = false := ih (fun x hx => hl x (by simp [hx]))
    exact hasAposPair_cons_false c (t ++ r) (fun hx => hc hx.1) ht

/-! Character class lemmas. -/

theorem isPyWs_cases (c : Char) (h : isPyWs c = true) :
    c = ' ' ∨ c = '\t' ∨ c = '\n' ∨ c = '\r' ∨ c = '\x0B' ∨ c = '\x0C' := by
  simpa [isPyWs, or_assoc] using h

theorem isHemi_cases (c : Char) (h : isHemi c = true) :
    c = 'N' ∨ c = 'S' ∨ c = 'E' ∨ c = 'W' := by
  simpa [isHemi, or_assoc] using h

theorem isSecCh_cases (c : Char) (h : isSecCh c = true) :
    c.isDigit = true ∨ c = '.' := by
  simpa [isSecCh] using h

theorem isPyWs_false_of_isDigit (c : Char) (h : c.isDigit = true) : isPyWs c = false := by
  cases hw : isPyWs c with
  | false => rfl
  | true =>
    rcases isPyWs_cases c hw with rfl | rfl | rfl | rfl | rfl | rfl <;> exact absurd h (by decide)

theorem isPyWs_false_of_isSecCh (c : Char) (h : isSecCh c = true) : isPyWs c = false := by
  rcases isSecCh_cases c h with hx | rfl
  · exact isPyWs_false_of_isDigit c hx
  · rfl

theorem ne_apos_of_isDigit (c : Char) (h : c.isDigit = true) : ¬ c = '\'' := by
  intro hc
  subst hc
  exact absurd h (by decide)

theorem ne_apos_of_isSecCh (c : Char) (h : isSecCh c = true) : ¬ c = '\'' := by
  intro hc
  subst hc
  exact absurd h (by decide)

theorem isHemi_false_of_isDigit (c : Char) (h : c.isDigit = true) : isHemi c = false := by
  cases hw : isHemi c with
  | false => rfl
  | true =>
    rcases isHemi_cases c hw with rfl | rfl | rfl | rfl <;> exact absurd h (by decide)

theorem isHemi_false_of_isSecCh (c : Char) (h : isSecCh c = true) : isHemi c = false := by
  rcases isSecCh_cases c h with hx | rfl
  · exact isHemi_false_of_isDigit c hx
  · rfl

theorem term_chars (term : List Char) (hterm : term = termA ∨ term = termB ∨ term = termC)
    (c : Char) (hc : c ∈ term) : c = '\'' ∨ c = '\"' := by
  rcases hterm with rfl | rfl | rfl <;> simp [termA, termB, termC] at hc <;> tauto

/-! Token-level lemmas. -/

theorem mem_mkToken (d m sec term : List Char) (h : Char) (c : Char)
    (hc : c ∈ mkToken d m sec term h) :
    c ∈ d ∨ c = '°' ∨ c ∈ m ∨ c = '\'' ∨ c ∈ sec ∨ c ∈ term ∨ c = h := by
  simp only [mkToken, List.mem_append, List.mem_cons] at hc
  tauto

theorem mkToken_ne_nil (d m sec term : List Char) (h : Char) (hd : d ≠ []) :
    mkToken d m sec term h ≠ [] := by
  cases d with
  | nil => exact absurd rfl hd
  | cons x t => simp [mkToken]

theorem pyStrip_mkToken (d m sec term : List Char) (h : Char)
    (hdd : ∀ c ∈ d, c.isDigit = true) (hmd : ∀ c ∈ m, c.isDigit = true)
    (hsecd : ∀ c ∈ sec, isSecCh c = true)
    (hterm : term = termA ∨ term = termB ∨ term = termC)
    (hhw : isPyWs h = false) :
    pyStrip (mkToken d m sec term h) = mkToken d m sec term h := by
  apply pyStrip_eq_self
  intro c hc
  rcases mem_mkToken d m sec term h c hc with hx | rfl | hx | rfl | hx | hx | rfl
  · exact isPyWs_false_of_isDigit c (hdd c hx)
  · rfl
  · exact isPyWs_false_of_isDigit c (hmd c hx)
  · rfl
  · exact isPyWs_false_of_isSecCh c (hsecd c hx)
  · rcases term_chars term hterm c hx with rfl | rfl <;> rfl
  · exact hhw

theorem mkToken_noPair (d m sec : List Char) (term : List Char) (h : Char)
    (hdd : ∀ c ∈ d, c.isDigit = true) (hmd : ∀ c ∈ m, c.isDigit = true)
    (hsec : sec ≠ []) (hsecd : ∀ c ∈ sec, isSecCh c = true)
    (hterm : term = termB ∨ term = termC) (hh : ¬ h = '\'') :
    hasAposPair (mkToken d m sec term h) = false := by
  have hSingle : hasAposPair [h] = false := rfl
  have hInner : hasAposPair (term ++ [h]) = false := by
    rcases hterm with rfl | rfl
    · exact hasAposPair_cons_false _ _ (fun hx => absurd hx.1 (by decide)) hSingle
    · refine hasAposPair_cons_false _ _ (fun hx => hh ?_) hSingle
      simpa using hx.2
  have hSec : hasAposPair (sec ++ (term ++ [h])) = false :=
    noPair_append_left sec _ (fun c hc => ne_apos_of_isSecCh c (hsecd c hc)) hInner
  have hApos : hasAposPair ('\'' :: (sec ++ (term ++ [h]))) = false := by
    refine hasAposPair_cons_false _ _ (fun hx => ?_) hSec
    have hx2 := hx.2
    rw [head_append_left sec _ hsec] at hx2
    exact ne_apos_of_isSecCh '\'' (hsecd '\'' (mem_of_head sec '\'' hx2)) rfl
  have hM : hasAposPair (m ++ '\'' :: (sec ++ (term ++ [h]))) = false :=
    noPair_append_left m _ (fun c hc => ne_apos_of_isDigit c (hmd c hc)) hApos
  have hDeg : hasAposPair ('°' :: (m ++ '\'' :: (sec ++ (term ++ [h])))) = false :=
    hasAposPair_cons_false _ _ (fun hx => absurd hx.1 (by decide)) hM
  exact noPair_append_left d _ (fun c hc => ne_apos_of_isDigit c (hdd c hc)) hDeg

theorem mkToken_no_quote (d m sec : List Char) (h : Char)
    (hdd : ∀ c ∈ d, c.isDigit = true) (hmd : ∀ c ∈ m, c.isDigit = true)
    (hsecd : ∀ c ∈ sec, isSecCh c = true) (hh : isHemi h = true) :
    ¬ '\"' ∈ mkToken d m sec termC h := by
  intro hc
  rcases mem_mkToken d m sec termC h '\"' hc with hx | hx | hx | hx | hx | hx | hx
  · exact absurd (hdd _ hx) (by decide)
  · exact absurd hx (by decide)
  · exact absurd (hmd _ hx) (by decide)
  · exact absurd hx (by decide)
  · exact absurd (hsecd _ hx) (by decide)
  · exact absurd hx (by decide)
  · rcases isHemi_cases h hh with rfl | rfl | rfl | rfl <;> exact absurd hx (by decide)

/-! search3 resolution. -/

theorem search3_of_termA (s : List Char) (g : Groups)
    (h : searchFrom termA s = some g) : search3 s = some g := by
  simp only [search3, h]

theorem search3_of_termB (s : List Char) (g : Groups)
    (hA : searchFrom termA s = none) (h : searchFrom termB s = some g) :
    search3 s = some g := by
  simp only [search3, hA, h]

theorem search3_of_termC (s : List Char)
    (hA : searchFrom termA s = none) (hB : searchFrom termB s = none) :
    search3 s = searchFrom termC s := by
  simp only [search3, hA, hB]

theorem searchFrom_termA_none (s : List Char) (hs : hasAposPair s = false) :
    searchFrom termA s = none := by
  cases h : searchFrom termA s with
  | none => rfl
  | some g =>
    rw [searchFrom_termA_pair s g h] at hs
    exact Bool.noConfusion hs

theorem searchFrom_termB_none (s : List Char) (hs : ¬ '\"' ∈ s) :
    searchFrom termB s = none := by
  cases h : searchFrom termB s with
  | none => rfl
  | some g => exact absurd (searchFrom_term_mem termB s g '\"' h (by simp [termB])) hs

theorem searchFrom_none_of_no_hemi (term s : List Char)
    (hs : ∀ c ∈ s, isHemi c = false) : searchFrom term s = none := by
  cases h : searchFrom term s with
  | none => rfl
  | some g =>
    rcases searchFrom_hemi term s g h with ⟨hh, hmem⟩
    rw [hs g.hemi hmem] at hh
    exact Bool.noConfusion hh

theorem ne_apos_of_isHemi (c : Char) (h : isHemi c = true) : ¬ c = '\'' := by
  intro hc
  subst hc
  exact absurd h (by decide)

theorem isPyWs_false_of_isHemi (c : Char) (h : isHemi c = true) : isPyWs c = false := by
  rcases isHemi_cases c h with rfl | rfl | rfl | rfl <;> rfl

theorem search3_none_of_no_hemi (s : List Char) (hs : ∀ c ∈ s, isHemi c = false) :
    search3 s = none := by
  simp only [search3, searchFrom_none_of_no_hemi termA s hs,
    searchFrom_none_of_no_hemi termB s hs, searchFrom_none_of_no_hemi termC s hs]

theorem floatOfSecGroup_eq (l : List Char) (hdot : l.count '.' ≤ 1)
    (hdig : l.any Char.isDigit = true) : floatOfSecGroup l = some (secVal l) := by
  simp [floatOfSecGroup, hdot, hdig]

theorem dms_eval (s : List Char) (g : Groups)
    (hne : ¬ pyStrip s = []) (hsearch : search3 (pyStrip s) = some g)
    (hdot : g.secs.count '.' ≤ 1) (hdig : g.secs.any Char.isDigit = true) :
    dms_to_decimal s = (Except.ok (some (round8 (if hemiNeg g.hemi then
        qNeg (qAdd (qAdd (digitsVal g.deg : ℚ) (qDiv (digitsVal g.mins : ℚ) 60))
          (qDiv (secVal g.secs) 3600))
      else qAdd (qAdd (digitsVal g.deg : ℚ) (qDiv (digitsVal g.mins : ℚ) 60))
          (qDiv (secVal g.secs) 3600)))), []) := by
  simp only [dms_to_decimal, if_neg hne, hsearch, floatOfSecGroup_eq g.secs hdot hdig]

theorem search3_mkToken (d m sec term : List Char) (h : Char)
    (hd : d ≠ []) (hdd : ∀ c ∈ d, c.isDigit = true)
    (hm : m ≠ []) (hmd : ∀ c ∈ m, c.isDigit = true)
    (hsec : sec ≠ []) (hsecd : ∀ c ∈ sec, isSecCh c = true)
    (hterm : term = termA ∨ term = termB ∨ term = termC)
    (hh : isHemi h = true) :
    search3 (mkToken d m sec term h) = some ⟨d, m, sec, h⟩ := by
  rcases hterm with rfl | rfl | rfl
  · exact search3_of_termA _ _ (searchFrom_of_matchAt _ _ _
      (matchAt_mk d m sec termA h [] hd hdd hm hmd hsec hsecd '\'' ['\''] rfl (by decide) hh))
  · have hA : searchFrom termA (mkToken d m sec termB h) = none :=
      searchFrom_termA_none _ (mkToken_noPair d m sec termB h hdd hmd hsec hsecd
        (Or.inl rfl) (ne_apos_of_isHemi h hh))
    exact search3_of_termB _ _ hA (searchFrom_of_matchAt _ _ _
      (matchAt_mk d m sec termB h [] hd hdd hm hmd hsec hsecd '\"' [] rfl (by decide) hh))
  · have hA : searchFrom termA (mkToken d m sec termC h) = none :=
      searchFrom_termA_none _ (mkToken_noPair d m sec termC h hdd hmd hsec hsecd
        (Or.inr rfl) (ne_apos_of_isHemi h hh))
    have hB : searchFrom termB (mkToken d m sec termC h) = none :=
      searchFrom_termB_none _ (mkToken_no_quote d m sec h hdd hmd hsecd hh)
    rw [search3_of_termC _ hA hB]
    exact searchFrom_of_matchAt _ _ _
      (matchAt_mk d m sec termC h [] hd hdd hm hmd hsec hsecd '\'' [] rfl (by decide) hh)

/-- C1: for every valid DMS token of one of the three forms (degree digits,
degree sign, minute digits, apostrophe, seconds text, then a doubled
apostrophe, a double quote, or a single apostrophe, then hemisphere letter
N, S, E or W), dms_to_decimal returns degrees + minutes/60 + seconds/3600,
negated when the hemisphere is S or W, rounded to 8 decimal places, with no
diagnostic printed. -/
theorem claim_C1 (d m sec term : List Char) (h : Char)
    (hd : d ≠ []) (hdd : ∀ c ∈ d, c.isDigit = true)
    (hm : m ≠ []) (hmd : ∀ c ∈ m, c.isDigit = true)
    (hsec : sec ≠ []) (hsecd : ∀ c ∈ sec, isSecCh c = true)
    (hdot : sec.count '.' ≤ 1) (hdig : sec.any Char.isDigit = true)
    (hterm : term = termA ∨ term = termB ∨ term = termC)
    (hh : isHemi h = true) :
    dms_to_decimal (mkToken d m sec term h)
      = (Except.ok (some (round8 (if hemiNeg h then
          -((digitsVal d : ℚ) + (digitsVal m : ℚ) / 60 + secVal sec / 3600)
        else (digitsVal d : ℚ) + (digitsVal m : ℚ) / 60 + secVal sec / 3600))), []) := by
  have hstrip : pyStrip (mkToken d m sec term h) = mkToken d m sec term h :=
    pyStrip_mkToken d m sec term h hdd hmd hsecd hterm (isPyWs_false_of_isHemi h hh)
  have hne : ¬ pyStrip (mkToken d m sec term h) = [] := by
    rw [hstrip]
    exact mkToken_ne_nil d m sec term h hd
  have hsearch : search3 (pyStrip (mkToken d m sec term h)) = some ⟨d, m, sec, h⟩ := by
    rw [hstrip]
    exact search3_mkToken d m sec term h hd hdd hm hmd hsec hsecd hterm hh
  rw [dms_eval (mkToken d m sec term h) ⟨d, m, sec, h⟩ hne hsearch hdot hdig]
  simp only [qAdd_eq, qDiv_eq, qNeg_eq]

/-- Witness for C1 at the concrete token of the source test data. -/
theorem claim_C1_witness :
    dms_to_decimal (mkToken ("33").toList ("47").toList ("40").toList termA 'N')
      = (Except.ok (some (round8 (if hemiNeg 'N' then
          -((digitsVal ("33").toList : ℚ) + (digitsVal ("47").toList : ℚ) / 60
              + secVal ("40").toList / 3600)
        else (digitsVal ("33").toList : ℚ) + (digitsVal ("47").toList : ℚ) / 60
              + secVal ("40").toList / 3600))), []) :=
  claim_C1 ("33").toList ("47").toList ("40").toList termA 'N'
    (by decide) (by decide) (by decide) (by decide) (by decide) (by decide)
    (by decide) (by decide) (Or.inl rfl) (by decide)

/-- C9: a token that would be a valid DMS token except that the hemisphere
letter is lowercase matches none of the three patterns, so dms_to_decimal
returns null rather than a decimal degree. -/
theorem claim_C9 (d m sec term : List Char) (h : Char)
    (hd : d ≠ []) (hdd : ∀ c ∈ d, c.isDigit = true)
    (hm : m ≠ []) (hmd : ∀ c ∈ m, c.isDigit = true)
    (hsec : sec ≠ []) (hsecd : ∀ c ∈ sec, isSecCh c = true)
    (hterm : term = termA ∨ term = termB ∨ term = termC)
    (hlow : h = 'n' ∨ h = 's' ∨ h = 'e' ∨ h = 'w') :
    (dms_to_decimal (mkToken d m sec term h)).1 = Except.ok none := by
  have hhw : isPyWs h = false := by
    rcases hlow with rfl | rfl | rfl | rfl <;> rfl
  have hstrip : pyStrip (mkToken d m sec term h) = mkToken d m sec term h :=
    pyStrip_mkToken d m sec term h hdd hmd hsecd hterm hhw
  have hne : ¬ pyStrip (mkToken d m sec term h) = [] := by
    rw [hstrip]
    exact mkToken_ne_nil d m sec term h hd
  have hnone : search3 (mkToken d m sec term h) = none := by
    apply search3_none_of_no_hemi
    intro c hc
    rcases mem_mkToken d m sec term h c hc with hx | rfl | hx | rfl | hx | hx | rfl
    · exact isHemi_false_of_isDigit c (hdd c hx)
    · rfl
    · exact isHemi_false_of_isDigit c (hmd c hx)
    · rfl
    · exact isHemi_false_of_isSecCh c (hsecd c hx)
    · rcases term_chars term hterm c hx with rfl | rfl <;> rfl
    · rcases hlow with rfl | rfl | rfl | rfl <;> rfl
  rw [dms_to_decimal, if_neg hne, hstrip, hnone]

/-- Witness for C9 at a concrete lowercase-hemisphere token. -/
theorem claim_C9_witness :
    (dms_to_decimal (mkToken ("33").toList ("47").toList ("40").toList termA 'n')).1
      = Except.ok none :=
  claim_C9 ("33").toList ("47").toList ("40").toList termA 'n'
    (by decide) (by decide) (by decide) (by decide) (by decide) (by decide)
    (Or.inl rfl) (Or.inl rfl)

/-- C6: the three DMS patterns are tried in the fixed order doubled
apostrophe, then double quote, then single apostrophe, and the first
pattern that matches anywhere determines the extracted groups; concretely,
on the token of 33 degrees 47 minutes 40 seconds with a doubled-apostrophe
terminator and hemisphere N, the doubled-apostrophe pattern extracts
seconds 40 and the parse evaluates to 33.79444444. -/
theorem claim_C6 :
    (∀ s g, searchFrom termA s = some g → search3 s = some g) ∧
    (∀ s g, searchFrom termA s = none → searchFrom termB s = some g →
      search3 s = some g) ∧
    (∀ s, searchFrom termA s = none → searchFrom termB s = none →
      search3 s = searchFrom termC s) ∧
    searchFrom termA (mkToken ("33").toList ("47").toList ("40").toList termA 'N')
      = some ⟨("33").toList, ("47").toList, ("40").toList, 'N'⟩ ∧
    (dms_to_decimal (mkToken ("33").toList ("47").toList ("40").toList termA 'N')).1
      = Except.ok (some ((3379444444 : ℚ) / 100000000)) := by
  refine ⟨search3_of_termA, search3_of_termB, search3_of_termC, by decide, ?_⟩
  rw [← qDiv_eq]
  decide

/-- Witness for C6: the first pattern wins on the doubled-apostrophe token. -/
theorem claim_C6_witness :
    search3 (mkToken ("33").toList ("47").toList ("40").toList termA 'N')
      = some ⟨("33").toList, ("47").toList, ("40").toList, 'N'⟩ :=
  claim_C6.1 _ _ (by decide)

/-- C8: dms_to_decimal returns null with no diagnostic for an empty or
whitespace-only token, and returns null with a diagnostic naming the
(stripped) input for a nonempty token that matches none of the three
patterns. -/
theorem claim_C8 :
    (∀ s, pyStrip s = [] → dms_to_decimal s = (Except.ok none, [])) ∧
    (∀ s, pyStrip s ≠ [] → search3 (pyStrip s) = none →
      dms_to_decimal s = (Except.ok none, [Diag.couldNotParse (pyStrip s)])) := by
  constructor
  · intro s hs
    rw [dms_to_decimal, if_pos hs]
  · intro s hs hn
    rw [dms_to_decimal, if_neg hs, hn]

/-- Witness for C8 at a whitespace-only and at an unmatchable token. -/
theorem claim_C8_witness :
    dms_to_decimal ("   ").toList = (Except.ok none, []) ∧
    dms_to_decimal ("garbage").toList
      = (Except.ok none, [Diag.couldNotParse (pyStrip ("garbage").toList)]) :=
  ⟨claim_C8.1 _ (by decide), claim_C8.2 _ (by decide) (by decide)⟩

/-- C10: the pair converter silently skips every row with fewer than two
columns, as well as rows whose first or second column is empty after
trimming: the whole run result (pairs, diagnostics and exception
behaviour) is exactly that of the remaining rows, so the skipped row is
never parsed and never produces a diagnostic. -/
theorem claim_C10 (row : List (List Char)) (rest : List (List (List Char)))
    (h : row.length < 2 ∨ pyStrip (row.getD 0 []) = [] ∨ pyStrip (row.getD 1 []) = []) :
    convert_coordinates_file (row :: rest) = convert_coordinates_file rest := by
  have hg : rowGuard row = false := by
    simp only [List.getD, List.get?_eq_getElem?] at h
    rcases h with h | h | h
    · have h2 : ¬ 2 ≤ row.length := Nat.not_le.2 h
      simp [rowGuard, h2]
    · simp [rowGuard, List.getD, h]
    · simp [rowGuard, List.getD, h]
  simp [convert_coordinates_file, hg]

/-- Witness for C10 at a one-column row. -/
theorem claim_C10_witness :
    convert_coordinates_file [[("x").toList]] = convert_coordinates_file [] :=
  claim_C10 [("x").toList] [] (Or.inl (by decide))

/-! Pair converter lemmas. -/

theorem emitRow_guard_false (row : List (List Char)) (hg : rowGuard row = false) :
    emitRow row = none := by
  simp [emitRow, hg]

theorem convert_ok_spec : ∀ (rows : List (List (List Char))) (ps : List (ℚ × ℚ))
    (ds : List Diag), convert_coordinates_file rows = Except.ok (ps, ds) →
    ps = rows.filterMap emitRow := by
  intro rows
  induction rows with
  | nil =>
    intro ps ds h
    simp only [convert_coordinates_file, Except.ok.injEq, Prod.mk.injEq] at h
    rw [← h.1]
    rfl
  | cons row rest ih =>
    intro ps ds h
    simp only [convert_coordinates_file] at h
    by_cases hg : rowGuard row = true
    · rw [if_pos hg] at h
      rcases h1 : dms_to_decimal (pyStrip (row.getD 0 [])) with ⟨r1, d1⟩
      rw [h1] at h
      cases r1 with
      | error e => simp at h
      | ok o1 =>
        rcases h2 : dms_to_decimal (pyStrip (row.getD 1 [])) with ⟨r2, d2⟩
        rw [h2] at h
        cases r2 with
        | error e => simp at h
        | ok o2 =>
          rcases h3 : convert_coordinates_file rest with e3 | p3
          · rw [h3] at h
            simp at h
          · rcases p3 with ⟨ps2, ds2⟩
            rw [h3] at h
            have hrest := ih ps2 ds2 h3
            have h1f := congrArg Prod.fst h1
            have h2f := congrArg Prod.fst h2
            simp only [List.getD, List.get?_eq_getElem?] at h1f h2f
            cases o1 with
            | some a =>
              cases o2 with
              | some b =>
                have he : emitRow row = some (a, b) := by
                  simp [emitRow, hg, h1f, h2f]
                simp only [Except.ok.injEq, Prod.mk.injEq] at h
                rw [← h.1, List.filterMap_cons_some he, hrest]
              | none =>
                have he : emitRow row = none := by
                  simp [emitRow, hg, h1f, h2f]
                simp only [Except.ok.injEq, Prod.mk.injEq] at h
                rw [← h.1, List.filterMap_cons_none he, hrest]
            | none =>
              have he : emitRow row = none := by
                simp [emitRow, hg, h1f, h2f]
              simp only [Except.ok.injEq, Prod.mk.injEq] at h
              rw [← h.1, List.filterMap_cons_none he, hrest]
    · rw [if_neg hg] at h
      have hg' : rowGuard row = false := by
        cases hgb : rowGuard row with
        | false => rfl
        | true => exact absurd hgb hg
      rw [List.filterMap_cons_none (emitRow_guard_false row hg')]
      exact ih ps ds h

theorem filterMap_length_spec {α β : Type} (f : α → Option β) : ∀ (l : List α),
    (l.filterMap f).length ≤ l.length ∧
    ((l.filterMap f).length = l.length ↔ ∀ a ∈ l, f a ≠ none) := by
  intro l
  induction l with
  | nil => simp
  | cons a t ih =>
    cases hf : f a with
    | none =>
      rw [List.filterMap_cons_none hf]
      refine ⟨le_trans ih.1 (Nat.le_succ _), ?_, ?_⟩
      · intro hlen
        exact absurd hlen (Nat.ne_of_lt (Nat.lt_succ_of_le ih.1))
      · intro hall
        exact absurd hf (hall a (by simp))
    | some b =>
      rw [List.filterMap_cons_some hf]
      simp only [List.length_cons, Nat.succ_le_succ_iff, Nat.succ.injEq]
      refine ⟨ih.1, ?_, ?_⟩
      · intro hlen a2 ha2
        rcases List.mem_cons.1 ha2 with rfl | h2
        · simp [hf]
        · exact (ih.2.1 hlen) a2 h2
      · intro hall
        exact ih.2.2 (fun a2 h2 => hall a2 (by simp [h2]))

/-- C3 (amended): for every input row sequence whose run completes without
an exception, the pair converter output is exactly the pairs of those rows
whose two tokens both parse successfully, in input order; the output row
count is at most the input row count, with equality exactly when every row
is emitted.  (The unamended claim fails when a row raises inside float,
see the counterexample.) -/
theorem claim_C3 (rows : List (List (List Char))) (ps : List (ℚ × ℚ)) (ds : List Diag)
    (h : convert_coordinates_file rows = Except.ok (ps, ds)) :
    ps = rows.filterMap emitRow ∧ ps.length ≤ rows.length ∧
      (ps.length = rows.length ↔ ∀ r ∈ rows, emitRow r ≠ none) := by
  have h1 := convert_ok_spec rows ps ds h
  subst h1
  exact ⟨rfl, (filterMap_length_spec emitRow rows).1, (filterMap_length_spec emitRow rows).2⟩

/-- Counterexample to C3 as frozen: on this single-row input both tokens
are matchable but the seconds group of the first is 1.2.3, float raises
ValueError, the run aborts, and no output sequence exists at all. -/
theorem claim_C3_counterexample :
    convert_coordinates_file
      [[mkToken ("1").toList ("2").toList ("1.2.3").toList termA 'N',
        mkToken ("3").toList ("4").toList ("5").toList termA 'W']]
      = Except.error () := by decide

/-- Witness for C3 (amended) on a concrete successful run over one good
row, one row with an unparsable first token, and one short row. -/
theorem claim_C3_witness :
    [samplePair] = sampleRows.filterMap emitRow ∧
    [samplePair].length ≤ sampleRows.length ∧
    ([samplePair].length = sampleRows.length ↔ ∀ r ∈ sampleRows, emitRow r ≠ none) :=
  claim_C3 sampleRows [samplePair]
    [Diag.couldNotParse ("garbage").toList] (by decide)

/-! Record converter lemmas. -/

theorem forall2_comp {α : Type} {P Q R : α → α → Prop}
    (hPQR : ∀ a b c, P a b → Q b c → R a c) :
    ∀ {l1 l2 l3 : List α}, List.Forall₂ P l1 l2 → List.Forall₂ Q l2 l3 →
      List.Forall₂ R l1 l3 := by
  intro l1 l2 l3 h1
  induction h1 generalizing l3 with
  | nil =>
    intro h2
    cases h2
    exact List.Forall₂.nil
  | cons hab h1x ih =>
    intro h2
    cases h2 with
    | cons hbc h2x => exact List.Forall₂.cons (hPQR _ _ _ hab hbc) (ih h2x)

theorem forall2_refl_of {α : Type} {R : α → α → Prop} :
    ∀ (l : List α), (∀ a ∈ l, R a a) → List.Forall₂ R l l := by
  intro l
  induction l with
  | nil => intro hx; exact List.Forall₂.nil
  | cons a t ih =>
    intro hx
    exact List.Forall₂.cons (hx a (by simp)) (ih (fun x h2 => hx x (by simp [h2])))

theorem setRec_keys : ∀ (r : Record) (k : String) (w : List Char),
    (setRec r k w).map Prod.fst = r.map Prod.fst := by
  intro r k w
  induction r with
  | nil => rfl
  | cons kv t ih =>
    rcases kv with ⟨k2, v2⟩
    by_cases hk : k2 = k
    · simp [setRec, hk]
    · simp [setRec, hk, ih]

theorem setRec_pointwise : ∀ (r : Record) (k : String) (w : List Char),
    List.Forall₂ (fun q p => q.1 = p.1 ∧ (¬ p.1 = k → q.2 = p.2)) (setRec r k w) r := by
  intro r k w
  induction r with
  | nil => exact List.Forall₂.nil
  | cons kv t ih =>
    rcases kv with ⟨k2, v2⟩
    by_cases hk : k2 = k
    · simp only [setRec, if_pos hk]
      exact List.Forall₂.cons ⟨rfl, fun hne => absurd hk hne⟩
        (forall2_refl_of t (fun a _ => ⟨rfl, fun _ => rfl⟩))
    · simp only [setRec, if_neg hk]
      exact List.Forall₂.cons ⟨rfl, fun _ => rfl⟩ ih

theorem findRec_setRec_ne : ∀ (r : Record) (k k2 : String) (w : List Char), ¬ k2 = k →
    findRec (setRec r k w) k2 = findRec r k2 := by
  intro r k k2 w hne
  induction r with
  | nil => rfl
  | cons kv t ih =>
    rcases kv with ⟨k3, v3⟩
    by_cases hk : k3 = k
    · subst hk
      simp only [setRec, if_pos rfl, findRec]
      rw [if_neg (fun hx => hne hx.symm), if_neg (fun hx => hne hx.symm)]
    · simp only [setRec, if_neg hk, findRec]
      by_cases hx : k3 = k2
      · rw [if_pos hx, if_pos hx]
      · rw [if_neg hx, if_neg hx]
        exact ih

theorem convertField_spec (r : Record) (key : String) (r1 : Record) (s e : ℕ)
    (ds : List Diag) (h : convertField r key = Except.ok (r1, s, e, ds)) :
    s + e = countF r key ∧ (r1 = r ∨ ∃ w, r1 = setRec r key w) ∧
      (∀ v, findRec r key = some v → ¬ pyStrip v = [] →
        (dms_to_decimal (pyStrip v)).1 = Except.ok none → r1 = r) := by
  simp only [convertField] at h
  split at h
  next hf => exact Except.noConfusion h
  next v hf =>
    split at h
    next hstrip =>
      simp only [Except.ok.injEq, Prod.mk.injEq] at h
      obtain ⟨h1, h2, h3, h4⟩ := h
      subst h1
      subst h2
      subst h3
      refine ⟨?_, Or.inl rfl, fun v2 hv2 hne2 _ => rfl⟩
      simp [countF, hf, hstrip]
    next hstrip =>
      split at h
      next e2 dd hd => exact Except.noConfusion h
      next q dd hd =>
        simp only [Except.ok.injEq, Prod.mk.injEq] at h
        obtain ⟨h1, h2, h3, h4⟩ := h
        subst h2
        subst h3
        refine ⟨?_, Or.inr ⟨ratStr q, h1.symm⟩, ?_⟩
        · simp [countF, hf, hstrip]
        · intro v2 hv2 hne2 hok
          rw [hf] at hv2
          injection hv2 with hv2
          subst hv2
          rw [hd] at hok
          simp at hok
      next dd hd =>
        split at h
        next ho => exact Except.noConfusion h
        next oid ho =>
          simp only [Except.ok.injEq, Prod.mk.injEq] at h
          obtain ⟨h1, h2, h3, h4⟩ := h
          subst h2
          subst h3
          refine ⟨?_, Or.inl h1.symm, fun v2 hv2 hne2 hok => h1.symm⟩
          simp [countF, hf, hstrip]

theorem convertRecord_spec (r r2 : Record) (s e : ℕ) (ds : List Diag)
    (h : convertRecord r = Except.ok (r2, s, e, ds)) :
    ∃ r1 s1 e1 d1 s2 e2 d2,
      convertField r "latitude" = Except.ok (r1, s1, e1, d1) ∧
      convertField r1 "longitude" = Except.ok (r2, s2, e2, d2) ∧
      s = s1 + s2 ∧ e = e1 + e2 ∧ ds = d1 ++ d2 := by
  simp only [convertRecord] at h
  split at h
  next eA hA => exact Except.noConfusion h
  next r1 s1 e1 d1 hA =>
    split at h
    next eB hB => exact Except.noConfusion h
    next r2b s2 e2 d2 hB =>
      simp only [Except.ok.injEq, Prod.mk.injEq] at h
      obtain ⟨h1, h2, h3, h4⟩ := h
      subst h1
      subst h2
      subst h3
      subst h4
      exact ⟨r1, s1, e1, d1, s2, e2, d2, hA, hB, rfl, rfl, rfl⟩

theorem convertRecord_master (r r2 : Record) (s e : ℕ) (ds : List Diag)
    (h : convertRecord r = Except.ok (r2, s, e, ds)) :
    s + e = countF r "latitude" + countF r "longitude" ∧
    (∀ v, findRec r "latitude" = some v → ¬ pyStrip v = [] →
      (dms_to_decimal (pyStrip v)).1 = Except.ok none → findRec r2 "latitude" = some v) ∧
    (∀ v, findRec r "longitude" = some v → ¬ pyStrip v = [] →
      (dms_to_decimal (pyStrip v)).1 = Except.ok none → findRec r2 "longitude" = some v) ∧
    r2.map Prod.fst = r.map Prod.fst ∧
    List.Forall₂ (fun q p => q.1 = p.1 ∧
      (¬ p.1 = "latitude" → ¬ p.1 = "longitude" → q.2 = p.2)) r2 r := by
  rcases convertRecord_spec r r2 s e ds h with
    ⟨r1, s1, e1, d1, s2, e2, d2, hA, hB, hs, he, hd⟩
  obtain ⟨cA, shapeA, failA⟩ := convertField_spec r "latitude" r1 s1 e1 d1 hA
  obtain ⟨cB, shapeB, failB⟩ := convertField_spec r1 "longitude" r2 s2 e2 d2 hB
  have hlngA : findRec r1 "longitude" = findRec r "longitude" := by
    rcases shapeA with rfl | ⟨w, rfl⟩
    · rfl
    · exact findRec_setRec_ne r "latitude" "longitude" w (by decide)
  have hlatB : findRec r2 "latitude" = findRec r1 "latitude" := by
    rcases shapeB with rfl | ⟨w, rfl⟩
    · rfl
    · exact findRec_setRec_ne r1 "longitude" "latitude" w (by decide)
  have hlatA : ∀ v, findRec r "latitude" = some v → ¬ pyStrip v = [] →
      (dms_to_decimal (pyStrip v)).1 = Except.ok none → findRec r2 "latitude" = some v := by
    intro v hv hne hok
    have hr1 : r1 = r := failA v hv hne hok
    rw [hlatB, hr1, hv]
  have hlngB : ∀ v, findRec r "longitude" = some v → ¬ pyStrip v = [] →
      (dms_to_decimal (pyStrip v)).1 = Except.ok none → findRec r2 "longitude" = some v := by
    intro v hv hne hok
    have hv1 : findRec r1 "longitude" = some v := by rw [hlngA, hv]
    have hr2 : r2 = r1 := failB v hv1 hne hok
    rw [hr2, hv1]
  have hcntB : countF r1 "longitude" = countF r "longitude" := by
    rw [countF, countF, hlngA]
  have hkeysA : r1.map Prod.fst = r.map Prod.fst := by
    rcases shapeA with rfl | ⟨w, rfl⟩
    · rfl
    · exact setRec_keys r "latitude" w
  have hkeysB : r2.map Prod.fst = r1.map Prod.fst := by
    rcases shapeB with rfl | ⟨w, rfl⟩
    · rfl
    · exact setRec_keys r1 "longitude" w
  have hFA : List.Forall₂ (fun q p => q.1 = p.1 ∧ (¬ p.1 = "latitude" → q.2 = p.2)) r1 r := by
    rcases shapeA with rfl | ⟨w, rfl⟩
    · exact forall2_refl_of r1 (fun a _ => ⟨rfl, fun _ => rfl⟩)
    · exact setRec_pointwise r "latitude" w
  have hFB : List.Forall₂ (fun q p => q.1 = p.1 ∧ (¬ p.1 = "longitude" → q.2 = p.2)) r2 r1 := by
    rcases shapeB with rfl | ⟨w, rfl⟩
    · exact forall2_refl_of r2 (fun a _ => ⟨rfl, fun _ => rfl⟩)
    · exact setRec_pointwise r1 "longitude" w
  refine ⟨?_, hlatA, hlngB, by rw [hkeysB, hkeysA], ?_⟩
  · rw [hs, he, ← hcntB] at *
    omega
  · refine forall2_comp ?_ hFB hFA
    intro a b c hab hbc
    refine ⟨hab.1.trans hbc.1, fun hlat hlng => ?_⟩
    have hb2 : b.2 = c.2 := hbc.2 hlat
    have ha2 : a.2 = b.2 := hab.2 (by rw [hbc.1]; exact hlng)
    rw [ha2, hb2]

theorem firetower_run_spec : ∀ (rs outs : List Record) (s e : ℕ) (ds : List Diag),
    convert_firetower_csv rs = Except.ok (outs, s, e, ds) →
    outs.length = rs.length ∧
    s + e = (rs.map (fun r => countF r "latitude" + countF r "longitude")).sum ∧
    List.Forall₂ (fun q p => ∃ s1 e1 d1,
      convertRecord p = Except.ok (q, s1, e1, d1)) outs rs := by
  intro rs
  induction rs with
  | nil =>
    intro outs s e ds h
    simp only [convert_firetower_csv, Except.ok.injEq, Prod.mk.injEq] at h
    obtain ⟨h1, h2, h3, h4⟩ := h
    subst h1
    subst h2
    subst h3
    exact ⟨rfl, rfl, List.Forall₂.nil⟩
  | cons r rest ih =>
    intro outs s e ds h
    simp only [convert_firetower_csv] at h
    split at h
    next eA hA => exact Except.noConfusion h
    next r1 s1 e1 d1 hA =>
      split at h
      next eB hB => exact Except.noConfusion h
      next outs2 s2 e2 d2 hB =>
        simp only [Except.ok.injEq, Prod.mk.injEq] at h
        obtain ⟨h1, h2, h3, h4⟩ := h
        subst h1
        subst h2
        subst h3
        subst h4
        obtain ⟨hlen, hsum, hF⟩ := ih outs2 s2 e2 d2 hB
        obtain ⟨hcount, _, _, _, _⟩ := convertRecord_master r r1 s1 e1 d1 hA
        refine ⟨by simp [hlen], ?_, List.Forall₂.cons ⟨s1, e1, d1, hA⟩ hF⟩
        simp only [List.map_cons, List.sum_cons]
        omega

/-- C2 (code behaviour at the example input named by the claim): on a token whose
seconds group is 1.2.3 — matchable by the first pattern — Python float
raises ValueError and the exception escapes dms_to_decimal, so the
function returns neither a decimal value nor null. -/
theorem claim_C2_bug :
    dms_to_decimal (mkToken ("33").toList ("47").toList ("1.2.3").toList termA 'N')
      = (Except.error (), []) := by decide

/-- C4 (amended): in the schema-aware converter, provided processing
completes without an exception, a record whose non-empty latitude or
longitude field fails to parse keeps the original string value of that field
and the record is still emitted, and every input record of such a run
appears in the output.  (The unamended claim fails when a field raises
inside float, see the counterexample.) -/
theorem claim_C4 :
    (∀ r r2 s e ds, convertRecord r = Except.ok (r2, s, e, ds) →
      (∀ v, findRec r "latitude" = some v → ¬ pyStrip v = [] →
        (dms_to_decimal (pyStrip v)).1 = Except.ok none →
        findRec r2 "latitude" = some v) ∧
      (∀ v, findRec r "longitude" = some v → ¬ pyStrip v = [] →
        (dms_to_decimal (pyStrip v)).1 = Except.ok none →
        findRec r2 "longitude" = some v)) ∧
    (∀ rs outs s e ds, convert_firetower_csv rs = Except.ok (outs, s, e, ds) →
      outs.length = rs.length) := by
  constructor
  · intro r r2 s e ds h
    obtain ⟨_, hlat, hlng, _, _⟩ := convertRecord_master r r2 s e ds h
    exact ⟨hlat, hlng⟩
  · intro rs outs s e ds h
    exact (firetower_run_spec rs outs s e ds h).1

/-- Counterexample to C4 as frozen: the latitude field of this record raises
inside float, the whole run aborts, and the record is not emitted. -/
theorem claim_C4_counterexample :
    convert_firetower_csv [[("objectid", ("1").toList),
      ("latitude", mkToken ("1").toList ("2").toList ("1.2.3").toList termA 'N'),
      ("longitude", ("x").toList)]] = Except.error () := by decide

/-- Witness for C4 (amended): the unparsable latitude value survives. -/
theorem claim_C4_witness :
    findRec sampleRecordFail "latitude" = some ("xx").toList :=
  (claim_C4.1 sampleRecordFail sampleRecordFail 0 1
      [Diag.couldNotParse ("xx").toList,
        Diag.fieldWarning "latitude" ("7").toList ("xx").toList]
      (by decide)).1 ("xx").toList (by decide) (by decide) (by decide)

/-- C5 (amended): for every schema-aware run that completes without an
exception, successCount + errorCount equals the number of latitude and
longitude fields that are nonempty after trimming across all records, and
the number of output records equals the number of input records.  (The
unamended claim fails when a field raises inside float, see the
counterexample.) -/
theorem claim_C5 (rs outs : List Record) (s e : ℕ) (ds : List Diag)
    (h : convert_firetower_csv rs = Except.ok (outs, s, e, ds)) :
    outs.length = rs.length ∧
    s + e = (rs.map (fun r => countF r "latitude" + countF r "longitude")).sum :=
  ⟨(firetower_run_spec rs outs s e ds h).1, (firetower_run_spec rs outs s e ds h).2.1⟩

/-- Counterexample to C5 as frozen: the longitude field of this record raises
inside float, the run aborts, and there is no output or count at all. -/
theorem claim_C5_counterexample :
    convert_firetower_csv [[("objectid", ("2").toList),
      ("latitude", ([] : List Char)),
      ("longitude", mkToken ("9").toList ("8").toList ("7.7.7").toList termB 'W')]]
      = Except.error () := by decide

/-- Witness for C5 (amended) on a one-record run with one nonempty
unparsable field. -/
theorem claim_C5_witness :
    ([sampleRecordFail] : List Record).length = [sampleRecordFail].length ∧
    (0 : ℕ) + 1 = ([sampleRecordFail].map
      (fun r => countF r "latitude" + countF r "longitude")).sum :=
  claim_C5 [sampleRecordFail] [sampleRecordFail] 0 1
    [Diag.couldNotParse ("xx").toList,
      Diag.fieldWarning "latitude" ("7").toList ("xx").toList] (by decide)

/-- C7: the schema-aware converter preserves the field set and
field order exactly, and every field other than latitude and longitude
keeps its original value. -/
theorem claim_C7 (r r2 : Record) (s e : ℕ) (ds : List Diag)
    (h : convertRecord r = Except.ok (r2, s, e, ds)) :
    r2.map Prod.fst = r.map Prod.fst ∧
    List.Forall₂ (fun q p => q.1 = p.1 ∧
      (¬ p.1 = "latitude" → ¬ p.1 = "longitude" → q.2 = p.2)) r2 r := by
  obtain ⟨_, _, _, hkeys, hF⟩ := convertRecord_master r r2 s e ds h
  exact ⟨hkeys, hF⟩

/-- Witness for C7 at a record with an extra field. -/
theorem claim_C7_witness :
    sampleRecordKeep.map Prod.fst = sampleRecordKeep.map Prod.fst ∧
    List.Forall₂ (fun q p => q.1 = p.1 ∧
      (¬ p.1 = "latitude" → ¬ p.1 = "longitude" → q.2 = p.2))
      sampleRecordKeep sampleRecordKeep :=
  claim_C7 sampleRecordKeep sampleRecordKeep 0 0 [] (by decide)
